import Mathlib

/-!
Shallow embedding of the normalization core of `src/parsers/FR.py`.

The file models the two normalizers of that module:

* `fetch_production`'s per-payload normalization (here `normalize_production`):
  given the JSON rows already fetched, select the required columns, coerce the
  technology columns to floats, and emit one record per row that passes the
  data-quality gate.
* `fetch_price`'s per-payload normalization (here `normalize_price`): traverse
  the XML document day-block by day-block, accumulate price records in an
  insertion-ordered mapping keyed by timestamp.

Modelling conventions:

* A float value of a technology column is `FValue := Option ℚ`: `none` stands
  for the float NaN (pandas' representation of a missing cell), `some q` for a
  finite numeric value.  Float arithmetic on these values (`fadd`, `fmul`,
  `fneg`) propagates NaN exactly as IEEE floats do on the operations the
  source uses (addition and multiplication by -1); the upstream feed carries
  only finite decimal numbers, so infinities never arise.
* A raw JSON/DataFrame cell is `Raw`: `absent` (field missing from the row,
  which pandas renders as NaN), `nan` (an explicit null), `num q` (a value
  `astype(float)` coerces to the number `q`), `bad` (a value float coercion
  rejects, making `astype` raise for the whole payload).
* Timestamps on the price side are integers counting hours: a day-block's
  `date` attribute is modelled already resolved by arrow into the
  timezone-anchored start-of-day instant (`dateStart`), and
  `start_date.replace(hours=+period)` is integer addition.
* Python exceptions (`KeyError` on column selection, `ValueError` on float
  coercion) are the `Except String` error case: the invocation fails
  wholesale and returns no records.
-/

namespace FR

/-- A float-or-NaN value: `none` is NaN, `some q` a finite float. -/
abbrev FValue := Option ℚ

/-- Float addition with NaN propagation. -/
def fadd : FValue → FValue → FValue
  | some a, some b => some (a + b)
  | _, _ => none

/-- Float multiplication (by a finite constant) with NaN propagation. -/
def fmul (v : FValue) (c : ℚ) : FValue :=
  match v with
  | some a => some (a * c)
  | none => none

/-- Float negation with NaN propagation. -/
def fneg : FValue → FValue
  | some a => some (-a)
  | none => none

/-- `is_not_nan_and_truthy` from the source: `False` for a float NaN,
otherwise Python truthiness, which on a float is `v != 0`. -/
def is_not_nan_and_truthy (v : FValue) : Bool :=
  match v with
  | none => false
  | some q => q != 0

/-- `MAP_GENERATION`: upstream column name to canonical technology name,
in the source's insertion order. -/
def MAP_GENERATION : List (String × String) :=
  [("nucleaire", "nuclear"),
   ("charbon", "coal"),
   ("gaz", "gas"),
   ("fioul", "oil"),
   ("eolien", "wind"),
   ("solaire", "solar"),
   ("bioenergies", "biomass")]

/-- `MAP_HYDRO`: the four hydro-related upstream columns. -/
def MAP_HYDRO : List String :=
  ["hydraulique_fil_eau_eclusee",
   "hydraulique_lacs",
   "hydraulique_step_turbinage",
   "pompage"]

/-- A raw cell of the JSON payload / DataFrame. -/
inductive Raw where
  /-- The field is missing from the row: pandas fills the cell with NaN. -/
  | absent : Raw
  /-- An explicit null / NaN value. -/
  | nan : Raw
  /-- A value that `astype(float)` coerces to the number `q`. -/
  | num (q : ℚ) : Raw
  /-- A value float coercion rejects: `astype(float)` raises. -/
  | bad : Raw
deriving Repr, DecidableEq

/-- An input row: a mapping from field names to raw cells, as an
association list. -/
abbrev Row := List (String × Raw)

/-- Cell of row `r` in column `c`: the first binding of `c`, or `absent`
(hence NaN after the DataFrame is built) when the row has no such field. -/
def lookupRaw (r : Row) (c : String) : Raw :=
  match r.find? (fun p => p.1 == c) with
  | some p => p.2
  | none => .absent

/-- `value_columns = list(MAP_GENERATION.keys()) + MAP_HYDRO`. -/
def valueColumns : List String := (MAP_GENERATION.map Prod.fst) ++ MAP_HYDRO

/-- `df[['date_heure'] + value_columns]` succeeds iff every required column
exists in the DataFrame, i.e. appears in at least one row of the payload. -/
def columnsOk (rows : List Row) : Bool :=
  ("date_heure" :: valueColumns).all
    (fun c => rows.any (fun r => r.any (fun p => p.1 == c)))

/-- Float coercion of one cell, as `astype(float)` treats it: missing and
null cells stay NaN, numeric cells become floats, anything else raises. -/
def coerce : Raw → Except String FValue
  | .absent => .ok none
  | .nan => .ok none
  | .num q => .ok (some q)
  | .bad => .error "could not convert value to float"

/-- Coerce the cells of the given columns of one row. -/
def coerceCols : List String → Row → Except String (List (String × FValue))
  | [], _ => .ok []
  | c :: cs, r =>
    match coerce (lookupRaw r c) with
    | .error e => .error e
    | .ok v =>
      match coerceCols cs r with
      | .error e => .error e
      | .ok rest => .ok ((c, v) :: rest)

/-- Coerce the value columns of one row
(`df[value_columns] = df[value_columns].astype(float)`, restricted to it). -/
def coerceRow (r : Row) : Except String (List (String × FValue)) :=
  coerceCols valueColumns r

/-- Lookup in a coerced row (or any string-keyed float mapping); a missing
key reads as NaN. -/
def getF (m : List (String × FValue)) (c : String) : FValue :=
  match m.find? (fun p => p.1 == c) with
  | some p => p.2
  | none => none

/-- The per-row `production` dict: the seven `MAP_GENERATION` renames in
insertion order, then the computed `hydro` sum
`hydraulique_lacs + hydraulique_fil_eau_eclusee`. -/
def mkProduction (cr : List (String × FValue)) : List (String × FValue) :=
  (MAP_GENERATION.map (fun p => (p.2, getF cr p.1)))
    ++ [("hydro", fadd (getF cr "hydraulique_lacs")
                       (getF cr "hydraulique_fil_eau_eclusee"))]

/-- The per-row `storage` dict:
`{'hydro': pompage * -1 + hydraulique_step_turbinage * -1}`. -/
def mkStorage (cr : List (String × FValue)) : List (String × FValue) :=
  [("hydro", fadd (fmul (getF cr "pompage") (-1))
                  (fmul (getF cr "hydraulique_step_turbinage") (-1)))]

/-- The quality gate: `any(is_not_nan_and_truthy(v) for v in production.values())`. -/
def productionGate (cr : List (String × FValue)) : Bool :=
  (mkProduction cr).any (fun p => is_not_nan_and_truthy p.2)

/-- A canonical production record. The `datetime` field carries the row's
raw `date_heure` cell (its parsing by arrow is plumbing outside this core). -/
structure PRecord where
  zoneKey : String
  datetime : Raw
  production : List (String × FValue)
  storage : List (String × FValue)
  source : String
deriving Repr, DecidableEq

/-- The datapoint built from a coerced row, or `none` when the quality gate
discards the row. -/
def rowRecordOfCoerced (zone : String) (d : Raw)
    (cr : List (String × FValue)) : Option PRecord :=
  if productionGate cr then
    some { zoneKey := zone
           datetime := d
           production := mkProduction cr
           storage := mkStorage cr
           source := "opendata.reseaux-energies.fr" }
  else none

/-- The whole per-row transform applied to a raw row: coerce it, then build
the datapoint; `none` when the gate discards the row.  (Rows whose coercion
fails never reach this point in a successful invocation.) -/
def rowRecord? (zone : String) (r : Row) : Option PRecord :=
  match coerceRow r with
  | .error _ => none
  | .ok cr => rowRecordOfCoerced zone (lookupRaw r "date_heure") cr

/-- Coerce every row of the payload (the bulk `astype(float)`), keeping each
row's raw `date_heure` cell alongside; any bad cell fails the invocation. -/
def coerceRows : List Row → Except String (List (Raw × List (String × FValue)))
  | [] => .ok []
  | r :: rs =>
    match coerceRow r with
    | .error e => .error e
    | .ok cr =>
      match coerceRows rs with
      | .error e => .error e
      | .ok rest => .ok ((lookupRaw r "date_heure", cr) :: rest)

/-- The normalization core of `fetch_production`: column selection (a fatal
`KeyError` when a required column is absent from the payload), bulk float
coercion (fatal on any uncoercible cell), then the per-row loop with the
quality gate. -/
def normalize_production (zone : String) (rows : List Row) :
    Except String (List PRecord) :=
  if columnsOk rows then
    match coerceRows rows with
    | .error e => .error e
    | .ok crs => .ok (crs.filterMap (fun p => rowRecordOfCoerced zone p.1 p.2))
  else .error "KeyError: required column missing from payload"

/-! ### Price side -/

/-- Numeric value of a list of decimal digit characters (0 for the empty
list; meaningful only under `allDigits`). -/
def digitsToNat (cs : List Char) : ℕ :=
  cs.foldl (fun a c => a * 10 + (c.toNat - 48)) 0

/-- Every character is a decimal digit. -/
def allDigits (cs : List Char) : Bool := cs.all Char.isDigit

/-- Python's `float(text)` on the decimal literals the feed carries: an
optional sign, then digits with an optional fractional part (at least one
digit overall); anything else fails (`ValueError`). -/
def parseFloat (s : String) : Option ℚ :=
  let cs := s.toList
  let neg : Bool := cs.head?.any (fun c => c.toNat == 45)
  let plus : Bool := cs.head?.any (fun c => c.toNat == 43)
  let body := if neg || plus then cs.tail else cs
  let intPart := body.takeWhile Char.isDigit
  let rest := body.dropWhile Char.isDigit
  let sign : ℚ := if neg then -1 else 1
  match rest with
  | [] =>
    if intPart.isEmpty then none
    else some (sign * (digitsToNat intPart : ℚ))
  | c :: frac =>
    if c.toNat == 46 && allDigits frac && !(intPart.isEmpty && frac.isEmpty) then
      some (sign * ((digitsToNat intPart : ℚ)
        + (digitsToNat frac : ℚ) / 10 ^ frac.length))
    else none

/-- An innermost `<valeur>` element: its integer `periode` attribute (hours
from the day start) and its text content (`none` for an empty element). -/
structure ValueElem where
  periode : Int
  text : Option String
deriving Repr, DecidableEq

/-- A zone-block (`item`) inside a day-block: `granularite` and `perimetre`
attributes (`None` when absent, as `item.get` returns) and the period
entries. -/
structure MarketItem where
  granularite : Option String
  perimetre : Option String
  values : List ValueElem
deriving Repr, DecidableEq

/-- A top-level child of the XML root.  `dateStart` is its `date` attribute
already resolved by arrow into the timezone-anchored start-of-day instant,
counted in hours. -/
structure DayBlock where
  tag : String
  dateStart : Int
  items : List MarketItem
deriving Repr, DecidableEq

/-- A canonical price record.  `price = none` is the freshly-created state
before the immediate price assignment; finished records carry `some`. -/
structure PriceRecord where
  zoneKey : String
  currency : String
  datetime : Int
  source : String
  price : Option ℚ
deriving Repr, DecidableEq

/-- The accumulator `datas`: an insertion-ordered mapping from timestamp to
record, as Python dicts preserve insertion order. -/
abbrev Datas := List (Int × PriceRecord)

/-- `datetime in datas`. -/
def hasKey (datas : Datas) (dt : Int) : Bool :=
  datas.any (fun kv => kv.1 == dt)

/-- `data['price'] = q` on the record stored at key `dt` (a Python dict
update keeps the entry's position). -/
def updatePrice (datas : Datas) (dt : Int) (q : ℚ) : Datas :=
  datas.map (fun kv => if kv.1 = dt then (kv.1, { kv.2 with price := some q }) else kv)

/-- The fresh record created when a timestamp is first seen: zone, currency,
source and timestamp populated, price absent. -/
def freshRecord (zone : String) (dt : Int) : PriceRecord :=
  { zoneKey := zone
    currency := "EUR"
    datetime := dt
    source := "rte-france.com"
    price := none }

/-- The inner `for value in item` loop: skip `ND` sentinels; otherwise
compute the timestamp, create the record on first sight, and set its price
from the parsed text (a non-numeric text raises, failing the invocation). -/
def processValues (zone : String) (start : Int) :
    List ValueElem → Datas → Except String Datas
  | [], datas => .ok datas
  | v :: rest, datas =>
    if v.text = some "ND" then processValues zone start rest datas
    else
      let dt := start + v.periode
      let datas1 := if hasKey datas dt then datas
                    else datas ++ [(dt, freshRecord zone dt)]
      match v.text.bind parseFloat with
      | none => .error "could not convert text to float"
      | some q => processValues zone start rest (updatePrice datas1 dt q)

/-- The `for item in donneesMarche` loop: only zone-blocks whose
`granularite` is `Global` and whose `perimetre` equals the requested zone
are processed. -/
def processItems (zone : String) (start : Int) :
    List MarketItem → Datas → Except String Datas
  | [], datas => .ok datas
  | it :: rest, datas =>
    if it.granularite ≠ some "Global" then processItems zone start rest datas
    else if some zone ≠ it.perimetre then processItems zone start rest datas
    else
      match processValues zone start it.values datas with
      | .error e => .error e
      | .ok datas2 => processItems zone start rest datas2

/-- The outer loop over the root's children: only `donneesMarche` day-blocks
are processed. -/
def processDays (zone : String) : List DayBlock → Datas → Except String Datas
  | [], datas => .ok datas
  | d :: rest, datas =>
    if d.tag ≠ "donneesMarche" then processDays zone rest datas
    else
      match processItems zone d.dateStart d.items datas with
      | .error e => .error e
      | .ok datas2 => processDays zone rest datas2

/-- The normalization core of `fetch_price`: traverse the document
accumulating `datas`, then return `list(datas.values())`. -/
def normalize_price (zone : String) (doc : List DayBlock) :
    Except String (List PriceRecord) :=
  match processDays zone doc [] with
  | .error e => .error e
  | .ok datas => .ok (datas.map (fun kv => kv.2))

/-- The timestamps of the usable (non-sentinel) period entries of one
zone-block's value list, in document order. -/
def valueTimes (start : Int) (vs : List ValueElem) : List Int :=
  vs.filterMap (fun v => if v.text = some "ND" then none
                         else some (start + v.periode))

/-- The usable timestamps contributed by a day-block's zone-blocks that pass
the granularity and zone filters, in document order. -/
def itemTimes (zone : String) (start : Int) : List MarketItem → List Int
  | [] => []
  | it :: rest =>
    if it.granularite ≠ some "Global" then itemTimes zone start rest
    else if some zone ≠ it.perimetre then itemTimes zone start rest
    else valueTimes start it.values ++ itemTimes zone start rest

/-- All usable timestamps of the document for the requested zone, in
day-then-period traversal order. -/
def docTimes (zone : String) : List DayBlock → List Int
  | [] => []
  | d :: rest =>
    if d.tag ≠ "donneesMarche" then docTimes zone rest
    else itemTimes zone d.dateStart d.items ++ docTimes zone rest

/-! ### Concrete inputs used by witnesses and counterexamples -/

/-- Scenario A row of the specification: nuclear 300, wind 50, gas NaN,
hydro components 10 and 5, everything else 0. -/
def rowA : Row :=
  [("nucleaire", .num 300), ("charbon", .num 0), ("gaz", .nan), ("fioul", .num 0),
   ("eolien", .num 50), ("solaire", .num 0), ("bioenergies", .num 0),
   ("hydraulique_fil_eau_eclusee", .num 10), ("hydraulique_lacs", .num 5),
   ("hydraulique_step_turbinage", .num 0), ("pompage", .num 0),
   ("date_heure", .num 1)]

/-- A row whose production values are all zero or NaN but whose storage
columns are active (pompage 5, turbinage 3). -/
def rowStorageOnly : Row :=
  [("nucleaire", .num 0), ("charbon", .num 0), ("gaz", .nan), ("fioul", .num 0),
   ("eolien", .num 0), ("solaire", .num 0), ("bioenergies", .num 0),
   ("hydraulique_fil_eau_eclusee", .num 0), ("hydraulique_lacs", .num 0),
   ("hydraulique_step_turbinage", .num 3), ("pompage", .num 5),
   ("date_heure", .num 2)]

/-- A row whose only nonzero field is one hydro component, the other hydro
component being NaN and the seven mapped technologies zero. -/
def rowHalfHydro : Row :=
  [("nucleaire", .num 0), ("charbon", .num 0), ("gaz", .num 0), ("fioul", .num 0),
   ("eolien", .num 0), ("solaire", .num 0), ("bioenergies", .num 0),
   ("hydraulique_fil_eau_eclusee", .num 7), ("hydraulique_lacs", .nan),
   ("hydraulique_step_turbinage", .num 0), ("pompage", .num 0),
   ("date_heure", .num 3)]

/-- A payload whose rows lack most required columns. -/
def rowsMissingCols : List Row := [[("nucleaire", Raw.num 1)]]

/-- Scenario B row of the specification: every technology and hydro field is
zero or NaN. -/
def rowB : Row :=
  [("nucleaire", .num 0), ("charbon", .num 0), ("gaz", .nan), ("fioul", .num 0),
   ("eolien", .num 0), ("solaire", .num 0), ("bioenergies", .num 0),
   ("hydraulique_fil_eau_eclusee", .num 0), ("hydraulique_lacs", .num 0),
   ("hydraulique_step_turbinage", .num 0), ("pompage", .num 0),
   ("date_heure", .num 4)]

/-- The coerced value columns of `rowA`. -/
def crA : List (String × FValue) :=
  [("nucleaire", some 300), ("charbon", some 0), ("gaz", none), ("fioul", some 0),
   ("eolien", some 50), ("solaire", some 0), ("bioenergies", some 0),
   ("hydraulique_fil_eau_eclusee", some 10), ("hydraulique_lacs", some 5),
   ("hydraulique_step_turbinage", some 0), ("pompage", some 0)]

/-- The coerced value columns of `rowB`. -/
def crB : List (String × FValue) :=
  [("nucleaire", some 0), ("charbon", some 0), ("gaz", none), ("fioul", some 0),
   ("eolien", some 0), ("solaire", some 0), ("bioenergies", some 0),
   ("hydraulique_fil_eau_eclusee", some 0), ("hydraulique_lacs", some 0),
   ("hydraulique_step_turbinage", some 0), ("pompage", some 0)]

/-- The coerced value columns of `rowStorageOnly`. -/
def crStorageOnly : List (String × FValue) :=
  [("nucleaire", some 0), ("charbon", some 0), ("gaz", none), ("fioul", some 0),
   ("eolien", some 0), ("solaire", some 0), ("bioenergies", some 0),
   ("hydraulique_fil_eau_eclusee", some 0), ("hydraulique_lacs", some 0),
   ("hydraulique_step_turbinage", some 3), ("pompage", some 5)]

/-- The coerced value columns of `rowHalfHydro`. -/
def crHalfHydro : List (String × FValue) :=
  [("nucleaire", some 0), ("charbon", some 0), ("gaz", some 0), ("fioul", some 0),
   ("eolien", some 0), ("solaire", some 0), ("bioenergies", some 0),
   ("hydraulique_fil_eau_eclusee", some 7), ("hydraulique_lacs", none),
   ("hydraulique_step_turbinage", some 0), ("pompage", some 0)]

/-- The record `normalize_production` emits for `rowA`. -/
def prodRecA : PRecord :=
  { zoneKey := "FR", datetime := .num 1,
    production := [("nuclear", some 300), ("coal", some 0), ("gas", none),
                   ("oil", some 0), ("wind", some 50), ("solar", some 0),
                   ("biomass", some 0), ("hydro", some 15)],
    storage := [("hydro", some 0)],
    source := "opendata.reseaux-energies.fr" }

/-- Start-of-day instant of 2021-01-01 in Europe/Paris (UTC+01:00), counted
in hours since the Unix epoch: 18628 days of offset minus one hour. -/
def startOfDay20210101 : Int := 447071

/-- Scenario C document of the specification: one `donneesMarche` day-block
dated 2021-01-01, one `Global`/`FR` zone-block, periods 0 ↦ "45.2",
1 ↦ "ND", 2 ↦ "46.0". -/
def scenarioDocC : List DayBlock :=
  [{ tag := "donneesMarche", dateStart := startOfDay20210101,
     items := [{ granularite := some "Global", perimetre := some "FR",
                 values := [⟨0, some "45.2"⟩, ⟨1, some "ND"⟩, ⟨2, some "46.0"⟩] }] }]

/-- The scenario C record at hour 0: price 45.2 = 226/5. -/
def priceRecC0 : PriceRecord :=
  ⟨"FR", "EUR", startOfDay20210101, "rte-france.com", some (226/5)⟩

/-- The scenario C record at hour 2: price 46.0. -/
def priceRecC2 : PriceRecord :=
  ⟨"FR", "EUR", startOfDay20210101 + 2, "rte-france.com", some 46⟩

/-- A well-formed document whose periods appear out of order (periode 2
before periode 0). -/
def unsortedDoc : List DayBlock :=
  [{ tag := "donneesMarche", dateStart := startOfDay20210101,
     items := [{ granularite := some "Global", perimetre := some "FR",
                 values := [⟨2, some "46.0"⟩, ⟨0, some "45.2"⟩] }] }]

/-- The first record returned for `unsortedDoc` (hour 2). -/
def unsortedRecLate : PriceRecord :=
  ⟨"FR", "EUR", startOfDay20210101 + 2, "rte-france.com", some 46⟩

/-- The second record returned for `unsortedDoc` (hour 0). -/
def unsortedRecEarly : PriceRecord :=
  ⟨"FR", "EUR", startOfDay20210101, "rte-france.com", some (226/5)⟩

/-! ### Production-side lemmas -/

theorem fadd_fmul_neg_one (a b : FValue) :
    fadd (fmul a (-1)) (fmul b (-1)) = fneg (fadd a b) := by
  rcases a with _ | x <;> rcases b with _ | y
  · rfl
  · rfl
  · rfl
  · simp only [fadd, fmul, fneg, Option.some.injEq]
    ring

theorem getF_mkProduction_hydro (cr : List (String × FValue)) :
    getF (mkProduction cr) "hydro"
      = fadd (getF cr "hydraulique_lacs") (getF cr "hydraulique_fil_eau_eclusee") := rfl

theorem getF_mkStorage_hydro (cr : List (String × FValue)) :
    getF (mkStorage cr) "hydro"
      = fadd (fmul (getF cr "pompage") (-1))
             (fmul (getF cr "hydraulique_step_turbinage") (-1)) := rfl

theorem mkProduction_keys (cr : List (String × FValue)) :
    (mkProduction cr).map Prod.fst
      = ["nuclear", "coal", "gas", "oil", "wind", "solar", "biomass", "hydro"] := rfl

theorem coerceRows_ok_filterMap (zone : String) :
    ∀ (rows : List Row) (crs : List (Raw × List (String × FValue))),
      coerceRows rows = .ok crs →
      crs.filterMap (fun p => rowRecordOfCoerced zone p.1 p.2)
        = rows.filterMap (rowRecord? zone) := by
  intro rows
  induction rows with
  | nil =>
    intro crs h
    simp only [coerceRows, Except.ok.injEq] at h
    subst h
    rfl
  | cons r rs ih =>
    intro crs h
    cases hcr : coerceRow r with
    | error e => simp [coerceRows, hcr] at h
    | ok cr =>
      cases hrs : coerceRows rs with
      | error e => simp [coerceRows, hcr, hrs] at h
      | ok rest =>
        simp only [coerceRows, hcr, hrs, Except.ok.injEq] at h
        subst h
        have hrr : rowRecord? zone r
            = rowRecordOfCoerced zone (lookupRaw r "date_heure") cr := by
          simp [rowRecord?, hcr]
        simp only [List.filterMap_cons, hrr, ih rest hrs]

theorem normalize_production_ok (zone : String) (rows : List Row)
    (recs : List PRecord) (h : normalize_production zone rows = .ok recs) :
    recs = rows.filterMap (rowRecord? zone) := by
  unfold normalize_production at h
  by_cases hcols : columnsOk rows
  · simp only [hcols, if_true] at h
    cases hcr : coerceRows rows with
    | error e => simp [hcr] at h
    | ok crs =>
      simp only [hcr, Except.ok.injEq] at h
      subst h
      exact coerceRows_ok_filterMap zone rows crs hcr
  · simp [hcols] at h

theorem coerceCols_bad (r : Row) :
    ∀ (cs : List String) (c : String), c ∈ cs → lookupRaw r c = .bad →
      ∃ e, coerceCols cs r = .error e := by
  intro cs
  induction cs with
  | nil => intro c hc; cases hc
  | cons c0 cs ih =>
    intro c hc hbad
    rcases List.mem_cons.mp hc with h0 | h0
    · subst h0
      exact ⟨"could not convert value to float", by simp [coerceCols, hbad, coerce]⟩
    · obtain ⟨e, he⟩ := ih c h0 hbad
      cases hc0 : coerce (lookupRaw r c0) with
      | error e0 => exact ⟨e0, by simp [coerceCols, hc0]⟩
      | ok v => exact ⟨e, by simp [coerceCols, hc0, he]⟩

theorem coerceRows_bad :
    ∀ (rows : List Row) (r : Row), r ∈ rows →
      (∃ e, coerceRow r = .error e) →
      ∃ e, coerceRows rows = .error e := by
  intro rows
  induction rows with
  | nil => intro r hr; cases hr
  | cons r0 rs ih =>
    intro r hr hbad
    rcases List.mem_cons.mp hr with h0 | h0
    · subst h0
      obtain ⟨e, he⟩ := hbad
      exact ⟨e, by simp [coerceRows, he]⟩
    · cases hc0 : coerceRow r0 with
      | error e0 => exact ⟨e0, by simp [coerceRows, hc0]⟩
      | ok v =>
        obtain ⟨e, he⟩ := ih r h0 hbad
        exact ⟨e, by simp [coerceRows, hc0, he]⟩

/-! ### Price-side lemmas: the accumulator invariant -/

theorem keys_updatePrice (datas : Datas) (dt : Int) (q : ℚ) :
    (updatePrice datas dt q).map Prod.fst = datas.map Prod.fst := by
  induction datas with
  | nil => rfl
  | cons kv rest ih =>
    simp only [updatePrice, List.map_cons] at ih ⊢
    by_cases h : kv.1 = dt <;> simp [h, ih]

theorem mem_updatePrice {datas : Datas} {dt : Int} {q : ℚ} {kv : Int × PriceRecord}
    (h : kv ∈ updatePrice datas dt q) :
    ∃ kv0 ∈ datas,
      (kv0.1 = dt ∧ kv = (kv0.1, { kv0.2 with price := some q })) ∨
      (kv0.1 ≠ dt ∧ kv = kv0) := by
  simp only [updatePrice, List.mem_map] at h
  obtain ⟨kv0, h0, heq⟩ := h
  refine ⟨kv0, h0, ?_⟩
  by_cases hk : kv0.1 = dt
  · exact Or.inl ⟨hk, by simp [← heq, hk]⟩
  · exact Or.inr ⟨hk, by simp [← heq, hk]⟩

theorem hasKey_eq_false_iff (datas : Datas) (dt : Int) :
    hasKey datas dt = false ↔ dt ∉ datas.map Prod.fst := by
  induction datas with
  | nil => simp [hasKey]
  | cons kv rest ih =>
    simp only [hasKey, List.any_cons, Bool.or_eq_false_iff, beq_eq_false_iff_ne,
      ne_eq, List.map_cons, List.mem_cons, not_or] at ih ⊢
    constructor
    · rintro ⟨ha, hb⟩
      exact ⟨fun hx => ha hx.symm, ih.mp hb⟩
    · rintro ⟨ha, hb⟩
      exact ⟨fun hx => ha hx.symm, ih.mpr hb⟩

theorem processValues_inv (zone : String) (start : Int) :
    ∀ (vs : List ValueElem) (datas datas2 : Datas),
      processValues zone start vs datas = .ok datas2 →
      (∀ kv ∈ datas, kv.2.datetime = kv.1 ∧ kv.2.price ≠ none) →
      (datas.map Prod.fst).Nodup →
      (∀ kv ∈ datas2, kv.2.datetime = kv.1 ∧ kv.2.price ≠ none) ∧
        (datas2.map Prod.fst).Nodup := by
  intro vs
  induction vs with
  | nil =>
    intro datas datas2 h h1 h2
    simp only [processValues, Except.ok.injEq] at h
    subst h
    exact ⟨h1, h2⟩
  | cons v rest ih =>
    intro datas datas2 h h1 h2
    by_cases hnd : v.text = some "ND"
    · simp only [processValues, if_pos hnd] at h
      exact ih datas datas2 h h1 h2
    · simp only [processValues, if_neg hnd] at h
      cases hq : v.text.bind parseFloat with
      | none => simp [hq] at h
      | some q =>
        simp only [hq] at h
        set dt := start + v.periode with hdtdef
        set datas1 := if hasKey datas dt then datas
                      else datas ++ [(dt, freshRecord zone dt)] with hd1
        have hent1 : ∀ kv0 ∈ datas1,
            kv0.2.datetime = kv0.1 ∧ (kv0.1 ≠ dt → kv0.2.price ≠ none) := by
          intro kv0 hkv0
          by_cases hk : hasKey datas dt
          · rw [hd1, if_pos hk] at hkv0
            exact ⟨(h1 kv0 hkv0).1, fun _ => (h1 kv0 hkv0).2⟩
          · rw [hd1, if_neg hk] at hkv0
            rcases List.mem_append.mp hkv0 with hin | hin
            · exact ⟨(h1 kv0 hin).1, fun _ => (h1 kv0 hin).2⟩
            · simp only [List.mem_singleton] at hin
              subst hin
              exact ⟨rfl, fun hne => absurd rfl hne⟩
        have hkeys1 : (datas1.map Prod.fst).Nodup := by
          by_cases hk : hasKey datas dt
          · rw [hd1, if_pos hk]; exact h2
          · rw [hd1, if_neg hk]
            have hnot : dt ∉ datas.map Prod.fst :=
              (hasKey_eq_false_iff datas dt).mp (Bool.eq_false_iff.mpr hk)
            simp [List.nodup_append, h2, hnot]
        refine ih (updatePrice datas1 dt q) datas2 h ?_ ?_
        · intro kv hkv
          obtain ⟨kv0, hkv0, hcase⟩ := mem_updatePrice hkv
          rcases hcase with ⟨hk, heq⟩ | ⟨hk, heq⟩
          · rw [heq]
            exact ⟨(hent1 kv0 hkv0).1, by simp⟩
          · rw [heq]
            exact ⟨(hent1 kv0 hkv0).1, (hent1 kv0 hkv0).2 hk⟩
        · rw [keys_updatePrice]
          exact hkeys1

theorem processItems_inv (zone : String) (start : Int) :
    ∀ (its : List MarketItem) (datas datas2 : Datas),
      processItems zone start its datas = .ok datas2 →
      (∀ kv ∈ datas, kv.2.datetime = kv.1 ∧ kv.2.price ≠ none) →
      (datas.map Prod.fst).Nodup →
      (∀ kv ∈ datas2, kv.2.datetime = kv.1 ∧ kv.2.price ≠ none) ∧
        (datas2.map Prod.fst).Nodup := by
  intro its
  induction its with
  | nil =>
    intro datas datas2 h h1 h2
    simp only [processItems, Except.ok.injEq] at h
    subst h
    exact ⟨h1, h2⟩
  | cons it rest ih =>
    intro datas datas2 h h1 h2
    by_cases hg : it.granularite ≠ some "Global"
    · simp only [processItems, if_pos hg] at h
      exact ih datas datas2 h h1 h2
    · by_cases hp : some zone ≠ it.perimetre
      · simp only [processItems, if_neg hg, if_pos hp] at h
        exact ih datas datas2 h h1 h2
      · simp only [processItems, if_neg hg, if_neg hp] at h
        cases hv : processValues zone start it.values datas with
        | error e => simp [hv] at h
        | ok datas3 =>
          simp only [hv] at h
          obtain ⟨h1', h2'⟩ := processValues_inv zone start it.values datas datas3 hv h1 h2
          exact ih datas3 datas2 h h1' h2'

theorem processDays_inv (zone : String) :
    ∀ (doc : List DayBlock) (datas datas2 : Datas),
      processDays zone doc datas = .ok datas2 →
      (∀ kv ∈ datas, kv.2.datetime = kv.1 ∧ kv.2.price ≠ none) →
      (datas.map Prod.fst).Nodup →
      (∀ kv ∈ datas2, kv.2.datetime = kv.1 ∧ kv.2.price ≠ none) ∧
        (datas2.map Prod.fst).Nodup := by
  intro doc
  induction doc with
  | nil =>
    intro datas datas2 h h1 h2
    simp only [processDays, Except.ok.injEq] at h
    subst h
    exact ⟨h1, h2⟩
  | cons d rest ih =>
    intro datas datas2 h h1 h2
    by_cases ht : d.tag ≠ "donneesMarche"
    · simp only [processDays, if_pos ht] at h
      exact ih datas datas2 h h1 h2
    · simp only [processDays, if_neg ht] at h
      cases hv : processItems zone d.dateStart d.items datas with
      | error e => simp [hv] at h
      | ok datas3 =>
        simp only [hv] at h
        obtain ⟨h1', h2'⟩ := processItems_inv zone d.dateStart d.items datas datas3 hv h1 h2
        exact ih datas3 datas2 h h1' h2'

/-! ### Price-side lemmas: which keys appear, and in which order -/

theorem valueTimes_cons_nd {v : ValueElem} (start : Int) (rest : List ValueElem)
    (h : v.text = some "ND") :
    valueTimes start (v :: rest) = valueTimes start rest := by
  simp [valueTimes, h]

theorem valueTimes_cons {v : ValueElem} (start : Int) (rest : List ValueElem)
    (h : ¬ v.text = some "ND") :
    valueTimes start (v :: rest) = (start + v.periode) :: valueTimes start rest := by
  simp [valueTimes, h]

theorem processValues_keys (zone : String) (start : Int) :
    ∀ (vs : List ValueElem) (datas datas2 : Datas),
      processValues zone start vs datas = .ok datas2 →
      ∃ new, datas2.map Prod.fst = datas.map Prod.fst ++ new ∧
        new.Sublist (valueTimes start vs) := by
  intro vs
  induction vs with
  | nil =>
    intro datas datas2 h
    simp only [processValues, Except.ok.injEq] at h
    subst h
    exact ⟨[], by simp, by simp [valueTimes]⟩
  | cons v rest ih =>
    intro datas datas2 h
    by_cases hnd : v.text = some "ND"
    · simp only [processValues, if_pos hnd] at h
      obtain ⟨new, e1, e2⟩ := ih datas datas2 h
      exact ⟨new, e1, by rw [valueTimes_cons_nd start rest hnd]; exact e2⟩
    · simp only [processValues, if_neg hnd] at h
      cases hq : v.text.bind parseFloat with
      | none => simp [hq] at h
      | some q =>
        simp only [hq] at h
        set dt := start + v.periode with hdtdef
        rw [valueTimes_cons start rest hnd]
        by_cases hk : hasKey datas dt
        · rw [if_pos hk] at h
          obtain ⟨new, e1, e2⟩ := ih (updatePrice datas dt q) datas2 h
          rw [keys_updatePrice] at e1
          exact ⟨new, e1, e2.cons dt⟩
        · rw [if_neg hk] at h
          obtain ⟨new, e1, e2⟩ := ih (updatePrice (datas ++ [(dt, freshRecord zone dt)]) dt q) datas2 h
          rw [keys_updatePrice] at e1
          refine ⟨dt :: new, ?_, e2.cons₂ dt⟩
          rw [e1]
          simp

theorem processItems_keys (zone : String) (start : Int) :
    ∀ (its : List MarketItem) (datas datas2 : Datas),
      processItems zone start its datas = .ok datas2 →
      ∃ new, datas2.map Prod.fst = datas.map Prod.fst ++ new ∧
        new.Sublist (itemTimes zone start its) := by
  intro its
  induction its with
  | nil =>
    intro datas datas2 h
    simp only [processItems, Except.ok.injEq] at h
    subst h
    exact ⟨[], by simp, by simp [itemTimes]⟩
  | cons it rest ih =>
    intro datas datas2 h
    by_cases hg : it.granularite ≠ some "Global"
    · simp only [processItems, if_pos hg] at h
      obtain ⟨new, e1, e2⟩ := ih datas datas2 h
      exact ⟨new, e1, by simp only [itemTimes, if_pos hg]; exact e2⟩
    · by_cases hp : some zone ≠ it.perimetre
      · simp only [processItems, if_neg hg, if_pos hp] at h
        obtain ⟨new, e1, e2⟩ := ih datas datas2 h
        exact ⟨new, e1, by simp only [itemTimes, if_neg hg, if_pos hp]; exact e2⟩
      · simp only [processItems, if_neg hg, if_neg hp] at h
        cases hv : processValues zone start it.values datas with
        | error e => simp [hv] at h
        | ok datas3 =>
          simp only [hv] at h
          obtain ⟨new1, e1, s1⟩ := processValues_keys zone start it.values datas datas3 hv
          obtain ⟨new2, e2, s2⟩ := ih datas3 datas2 h
          refine ⟨new1 ++ new2, ?_, ?_⟩
          · rw [e2, e1, List.append_assoc]
          · simp only [itemTimes, if_neg hg, if_neg hp]
            exact s1.append s2

theorem processDays_keys (zone : String) :
    ∀ (doc : List DayBlock) (datas datas2 : Datas),
      processDays zone doc datas = .ok datas2 →
      ∃ new, datas2.map Prod.fst = datas.map Prod.fst ++ new ∧
        new.Sublist (docTimes zone doc) := by
  intro doc
  induction doc with
  | nil =>
    intro datas datas2 h
    simp only [processDays, Except.ok.injEq] at h
    subst h
    exact ⟨[], by simp, by simp [docTimes]⟩
  | cons d rest ih =>
    intro datas datas2 h
    by_cases ht : d.tag ≠ "donneesMarche"
    · simp only [processDays, if_pos ht] at h
      obtain ⟨new, e1, e2⟩ := ih datas datas2 h
      exact ⟨new, e1, by simp only [docTimes, if_pos ht]; exact e2⟩
    · simp only [processDays, if_neg ht] at h
      cases hv : processItems zone d.dateStart d.items datas with
      | error e => simp [hv] at h
      | ok datas3 =>
        simp only [hv] at h
        obtain ⟨new1, e1, s1⟩ := processItems_keys zone d.dateStart d.items datas datas3 hv
        obtain ⟨new2, e2, s2⟩ := ih datas3 datas2 h
        refine ⟨new1 ++ new2, ?_, ?_⟩
        · rw [e2, e1, List.append_assoc]
        · simp only [docTimes, if_neg ht]
          exact s1.append s2

theorem normalize_price_ok_shape (zone : String) (doc : List DayBlock)
    (recs : List PriceRecord) (h : normalize_price zone doc = .ok recs) :
    ∃ datas, processDays zone doc [] = .ok datas ∧ recs = datas.map Prod.snd := by
  unfold normalize_price at h
  cases hd : processDays zone doc [] with
  | error e => simp [hd] at h
  | ok datas =>
    simp only [hd, Except.ok.injEq] at h
    exact ⟨datas, rfl, h.symm⟩

/-- For any successful invocation: every record's datetime is its key, every
record's price is populated, and the key list is duplicate-free. -/
theorem normalize_price_invariants (zone : String) (doc : List DayBlock)
    (datas : Datas) (h : processDays zone doc [] = .ok datas) :
    (∀ kv ∈ datas, kv.2.datetime = kv.1 ∧ kv.2.price ≠ none) ∧
      (datas.map Prod.fst).Nodup :=
  processDays_inv zone doc [] datas h (by simp) (by simp)

theorem datetimes_eq_keys (datas : Datas)
    (h : ∀ kv ∈ datas, kv.2.datetime = kv.1 ∧ kv.2.price ≠ none) :
    (datas.map Prod.snd).map (fun rec => rec.datetime) = datas.map Prod.fst := by
  induction datas with
  | nil => rfl
  | cons kv rest ih =>
    simp only [List.map_cons]
    rw [(h kv (by simp)).1, ih (fun kv0 hkv0 => h kv0 (by simp [hkv0]))]

/-! ### Skipping the `ND` sentinel -/

theorem processValues_skip_nd (zone : String) (start : Int) (p : Int) :
    ∀ (pre post : List ValueElem) (datas : Datas),
      processValues zone start (pre ++ ⟨p, some "ND"⟩ :: post) datas
        = processValues zone start (pre ++ post) datas := by
  intro pre
  induction pre with
  | nil =>
    intro post datas
    simp [processValues]
  | cons v rest ih =>
    intro post datas
    simp only [List.cons_append, processValues]
    by_cases hnd : v.text = some "ND"
    · simp only [if_pos hnd]
      exact ih post datas
    · simp only [if_neg hnd]
      cases hq : v.text.bind parseFloat with
      | none => simp [hq]
      | some q => simp [hq, ih]

theorem normalize_price_skip_nd (zone : String) (s : Int) (g per : Option String)
    (p : Int) (pre post : List ValueElem) (ds : List DayBlock) :
    normalize_price zone
      ({ tag := "donneesMarche", dateStart := s,
         items := [{ granularite := g, perimetre := per,
                     values := pre ++ ⟨p, some "ND"⟩ :: post }] } :: ds)
      = normalize_price zone
        ({ tag := "donneesMarche", dateStart := s,
           items := [{ granularite := g, perimetre := per,
                       values := pre ++ post }] } :: ds) := by
  unfold normalize_price
  suffices hsuff :
      processDays zone
        ({ tag := "donneesMarche", dateStart := s,
           items := [{ granularite := g, perimetre := per,
                       values := pre ++ ⟨p, some "ND"⟩ :: post }] } :: ds) []
        = processDays zone
          ({ tag := "donneesMarche", dateStart := s,
             items := [{ granularite := g, perimetre := per,
                         values := pre ++ post }] } :: ds) [] by
    rw [hsuff]
  simp only [processDays, processItems]
  by_cases hg : g ≠ some "Global"
  · simp [hg]
  · by_cases hp : some zone ≠ per
    · simp [hg, hp]
    · simp [hg, hp, processValues_skip_nd]

/-! ### The claims -/

/-- Claim C1: for every input production row having at least one technology
value that is present (non-NaN) and truthy, the normalization emits exactly
one canonical record for that row, in the same order as the input rows
(the output is the row list filtered through the per-row transform), with
`production.hydro = hydraulique_lacs + hydraulique_fil_eau_eclusee` and
`storage.hydro = -(pompage + hydraulique_step_turbinage)`. -/
theorem fr_C1 (zone : String) (rows : List Row) (recs : List PRecord)
    (h : normalize_production zone rows = .ok recs) :
    recs = rows.filterMap (rowRecord? zone) ∧
    ∀ r cr, coerceRow r = .ok cr → productionGate cr = true →
      ∃ rec, rowRecord? zone r = some rec ∧
        getF rec.production "hydro"
          = fadd (getF cr "hydraulique_lacs") (getF cr "hydraulique_fil_eau_eclusee") ∧
        getF rec.storage "hydro"
          = fneg (fadd (getF cr "pompage") (getF cr "hydraulique_step_turbinage")) := by
  refine ⟨normalize_production_ok zone rows recs h, ?_⟩
  intro r cr hcr hgate
  have hrr : rowRecord? zone r
      = some { zoneKey := zone
               datetime := lookupRaw r "date_heure"
               production := mkProduction cr
               storage := mkStorage cr
               source := "opendata.reseaux-energies.fr" } := by
    simp [rowRecord?, hcr, rowRecordOfCoerced, hgate]
  refine ⟨_, hrr, getF_mkProduction_hydro cr, ?_⟩
  rw [show ({ zoneKey := zone
              datetime := lookupRaw r "date_heure"
              production := mkProduction cr
              storage := mkStorage cr
              source := "opendata.reseaux-energies.fr" } : PRecord).storage
        = mkStorage cr from rfl,
      getF_mkStorage_hydro cr, fadd_fmul_neg_one]

theorem fr_C1_witness :
    ∃ rec, rowRecord? "FR" rowA = some rec ∧
      getF rec.production "hydro"
        = fadd (getF crA "hydraulique_lacs") (getF crA "hydraulique_fil_eau_eclusee") ∧
      getF rec.storage "hydro"
        = fneg (fadd (getF crA "pompage") (getF crA "hydraulique_step_turbinage")) :=
  (fr_C1 "FR" [rowA] [prodRecA] (by with_unfolding_all rfl)).2 rowA crA
    (by with_unfolding_all rfl) (by with_unfolding_all rfl)

/-- Claim C2: for every input production row in which every value of the
built production mapping (the seven mapped technology fields plus the
computed hydro sum) is NaN or falsy, no record is emitted for that row: the
per-row transform yields `none` and the output is the row list filtered
through it. -/
theorem fr_C2 (zone : String) (rows : List Row) (recs : List PRecord)
    (h : normalize_production zone rows = .ok recs) :
    recs = rows.filterMap (rowRecord? zone) ∧
    ∀ r cr, coerceRow r = .ok cr →
      ((mkProduction cr).all fun kv => !is_not_nan_and_truthy kv.2) = true →
      rowRecord? zone r = none := by
  refine ⟨normalize_production_ok zone rows recs h, ?_⟩
  intro r cr hcr hall
  have hg : productionGate cr = false := by
    unfold productionGate
    rw [← Bool.not_eq_true, List.any_eq_true]
    rintro ⟨kv, hkv, htruthy⟩
    have := List.all_eq_true.mp hall kv hkv
    simp [htruthy] at this
  simp [rowRecord?, hcr, rowRecordOfCoerced, hg]

theorem fr_C2_witness : rowRecord? "FR" rowB = none :=
  (fr_C2 "FR" [rowB] [] (by with_unfolding_all rfl)).2 rowB crB
    (by with_unfolding_all rfl) (by with_unfolding_all rfl)

/-- Claim C3: a period-entry whose text is the sentinel `ND` neither creates
nor updates a record: deleting it from the traversal changes nothing, both
at the level of the inner accumulation loop (for any prior accumulator
state, hence a previously recorded price is never overwritten) and at the
level of `normalize_price` on a whole document. -/
theorem fr_C3 :
    (∀ (zone : String) (start p : Int) (pre post : List ValueElem) (datas : Datas),
      processValues zone start (pre ++ ⟨p, some "ND"⟩ :: post) datas
        = processValues zone start (pre ++ post) datas) ∧
    (∀ (zone : String) (s : Int) (g per : Option String) (p : Int)
        (pre post : List ValueElem) (ds : List DayBlock),
      normalize_price zone
        ({ tag := "donneesMarche", dateStart := s,
           items := [{ granularite := g, perimetre := per,
                       values := pre ++ ⟨p, some "ND"⟩ :: post }] } :: ds)
        = normalize_price zone
          ({ tag := "donneesMarche", dateStart := s,
             items := [{ granularite := g, perimetre := per,
                         values := pre ++ post }] } :: ds)) :=
  ⟨fun zone start p pre post datas => processValues_skip_nd zone start p pre post datas,
   fun zone s g per p pre post ds => normalize_price_skip_nd zone s g per p pre post ds⟩

/-- Claim C4: every record's timestamp is a day-block's timezone-anchored
start-of-day plus `periode` hours (membership in `docTimes`, whose entries
are exactly the sums `dateStart + periode` of usable entries of matching
zone-blocks); concretely, scenario C (day 2021-01-01, zone `FR`, granularity
`Global`, periods 0 ↦ 45.2, 1 ↦ ND, 2 ↦ 46.0) produces exactly two records,
at hours 0 and 2 with prices 45.2 and 46.0, and none at hour 1. -/
theorem fr_C4 :
    (∀ (zone : String) (doc : List DayBlock) (recs : List PriceRecord),
        normalize_price zone doc = .ok recs →
        ∀ rec ∈ recs, rec.datetime ∈ docTimes zone doc) ∧
    normalize_price "FR" scenarioDocC = .ok [priceRecC0, priceRecC2] := by
  constructor
  · intro zone doc recs h rec hrec
    obtain ⟨datas, hd, hrecs⟩ := normalize_price_ok_shape zone doc recs h
    obtain ⟨hent, _⟩ := normalize_price_invariants zone doc datas hd
    obtain ⟨new, e1, s1⟩ := processDays_keys zone doc [] datas hd
    subst hrecs
    obtain ⟨kv, hkv, hkveq⟩ := List.mem_map.mp hrec
    have hdtkey : rec.datetime = kv.1 := by
      rw [← hkveq]; exact (hent kv hkv).1
    have hkey : kv.1 ∈ datas.map Prod.fst := List.mem_map_of_mem Prod.fst hkv
    rw [e1] at hkey
    simp only [List.map_nil, List.nil_append] at hkey
    rw [hdtkey]
    exact s1.subset hkey
  · with_unfolding_all rfl

theorem fr_C4_witness : priceRecC0.datetime ∈ docTimes "FR" scenarioDocC :=
  fr_C4.1 "FR" scenarioDocC [priceRecC0, priceRecC2] fr_C4.2 priceRecC0
    (List.mem_cons_self priceRecC0 [priceRecC2])

/-- Claim C6: in every sequence `normalize_price` returns, no two records
share a timestamp, and every returned record has a populated price. -/
theorem fr_C6 (zone : String) (doc : List DayBlock) (recs : List PriceRecord)
    (h : normalize_price zone doc = .ok recs) :
    (recs.map (fun rec => rec.datetime)).Nodup ∧
    ∀ rec ∈ recs, ∃ q, rec.price = some q := by
  obtain ⟨datas, hd, hrecs⟩ := normalize_price_ok_shape zone doc recs h
  obtain ⟨hent, hnodup⟩ := normalize_price_invariants zone doc datas hd
  subst hrecs
  constructor
  · rw [datetimes_eq_keys datas hent]
    exact hnodup
  · intro rec hrec
    obtain ⟨kv, hkv, hkveq⟩ := List.mem_map.mp hrec
    rw [← hkveq]
    exact Option.ne_none_iff_exists'.mp (hent kv hkv).2

theorem fr_C6_witness :
    (([priceRecC0, priceRecC2].map (fun rec => rec.datetime)).Nodup ∧
      ∀ rec ∈ [priceRecC0, priceRecC2], ∃ q, rec.price = some q) :=
  fr_C6 "FR" scenarioDocC [priceRecC0, priceRecC2] (by with_unfolding_all rfl)

/-- Claim C7, counterexample: the claim "for every input XML document the
returned sequence is ordered by timestamp ascending" is false: a document
whose periods appear out of order (periode 2 before periode 0) yields the
records in encounter order, hour 2 before hour 0. -/
theorem fr_C7_counterexample :
    normalize_price "FR" unsortedDoc = .ok [unsortedRecLate, unsortedRecEarly] ∧
    ¬ (([unsortedRecLate, unsortedRecEarly].map
          (fun rec => rec.datetime)).Pairwise (· ≤ ·)) := by
  constructor
  · with_unfolding_all rfl
  · intro hpair
    have := (List.pairwise_cons.mp hpair).1 unsortedRecEarly.datetime (by simp)
    simp only [unsortedRecLate, unsortedRecEarly, startOfDay20210101] at this
    omega

/-- Claim C7, amended: records are returned in the order their timestamps
are first encountered during the day-then-period traversal; whenever that
traversal meets the usable timestamps in nondecreasing order (as with an
upstream document whose days and periods are listed chronologically), the
returned sequence is ordered by timestamp ascending. -/
theorem fr_C7 (zone : String) (doc : List DayBlock) (recs : List PriceRecord)
    (h : normalize_price zone doc = .ok recs)
    (hsorted : (docTimes zone doc).Pairwise (· ≤ ·)) :
    (recs.map (fun rec => rec.datetime)).Pairwise (· ≤ ·) := by
  obtain ⟨datas, hd, hrecs⟩ := normalize_price_ok_shape zone doc recs h
  obtain ⟨hent, _⟩ := normalize_price_invariants zone doc datas hd
  obtain ⟨new, e1, s1⟩ := processDays_keys zone doc [] datas hd
  subst hrecs
  rw [datetimes_eq_keys datas hent, e1]
  simp only [List.map_nil, List.nil_append]
  exact hsorted.sublist s1

theorem fr_C7_witness :
    ([priceRecC0, priceRecC2].map (fun rec => rec.datetime)).Pairwise (· ≤ ·) :=
  fr_C7 "FR" scenarioDocC [priceRecC0, priceRecC2]
    (by with_unfolding_all rfl) (by decide)

/-- Claim C5: if the payload is missing any required technology or timestamp
column, or any value of the technology columns cannot be coerced to float,
the whole invocation fails with an error (so no records are returned at
all). -/
theorem fr_C5 (zone : String) (rows : List Row)
    (h : columnsOk rows = false ∨
         ∃ r ∈ rows, ∃ c ∈ valueColumns, lookupRaw r c = .bad) :
    ∃ e, normalize_production zone rows = .error e := by
  rcases h with h | ⟨r, hr, c, hc, hbad⟩
  · exact ⟨"KeyError: required column missing from payload",
      by simp [normalize_production, h]⟩
  · by_cases hcols : columnsOk rows
    · obtain ⟨e, he⟩ :=
        coerceRows_bad rows r hr (coerceCols_bad r valueColumns c hc hbad)
      exact ⟨e, by simp [normalize_production, hcols, he]⟩
    · exact ⟨"KeyError: required column missing from payload",
        by simp [normalize_production, hcols]⟩

theorem fr_C5_witness : ∃ e, normalize_production "FR" rowsMissingCols = .error e :=
  fr_C5 "FR" rowsMissingCols (Or.inl (by decide))

/-- Claim C8: storage values are ignored by the quality gate: a row whose
built production mapping values (hydro included) are all NaN or falsy emits
no record even when `pompage` or `hydraulique_step_turbinage` is present
and nonzero. -/
theorem fr_C8 (zone : String) (r : Row) (cr : List (String × FValue))
    (hcr : coerceRow r = .ok cr)
    (hall : ((mkProduction cr).all fun kv => !is_not_nan_and_truthy kv.2) = true)
    (_hstor : is_not_nan_and_truthy (getF cr "pompage") = true ∨
              is_not_nan_and_truthy (getF cr "hydraulique_step_turbinage") = true) :
    rowRecord? zone r = none := by
  have hg : productionGate cr = false := by
    unfold productionGate
    rw [← Bool.not_eq_true, List.any_eq_true]
    rintro ⟨kv, hkv, htruthy⟩
    have := List.all_eq_true.mp hall kv hkv
    simp [htruthy] at this
  simp [rowRecord?, hcr, rowRecordOfCoerced, hg]

theorem fr_C8_witness : rowRecord? "FR" rowStorageOnly = none :=
  fr_C8 "FR" rowStorageOnly crStorageOnly (by with_unfolding_all rfl)
    (by with_unfolding_all rfl) (Or.inl (by with_unfolding_all rfl))

/-- Claim C9: if either hydro component is NaN, the row's `production.hydro`
is NaN and counts as not present for the gate; in particular a row whose
seven mapped technologies are all NaN-or-falsy is suppressed even when the
other hydro component is a nonzero number. -/
theorem fr_C9 (zone : String) (r : Row) (cr : List (String × FValue))
    (hcr : coerceRow r = .ok cr)
    (hnan : getF cr "hydraulique_lacs" = none ∨
            getF cr "hydraulique_fil_eau_eclusee" = none) :
    getF (mkProduction cr) "hydro" = none ∧
    is_not_nan_and_truthy (getF (mkProduction cr) "hydro") = false ∧
    ((∀ kv ∈ MAP_GENERATION, is_not_nan_and_truthy (getF cr kv.1) = false) →
      rowRecord? zone r = none) := by
  have hhydro : getF (mkProduction cr) "hydro" = none := by
    rw [getF_mkProduction_hydro]
    rcases hnan with h | h
    · rw [h]; rfl
    · rw [h]; cases getF cr "hydraulique_lacs" <;> rfl
  refine ⟨hhydro, by rw [hhydro]; rfl, ?_⟩
  intro hgen
  have hg : productionGate cr = false := by
    unfold productionGate
    rw [← Bool.not_eq_true, List.any_eq_true]
    rintro ⟨kv, hkv, htruthy⟩
    rcases List.mem_append.mp hkv with hin | hin
    · obtain ⟨kv0, hkv0, heq⟩ := List.mem_map.mp hin
      rw [← heq] at htruthy
      simp only at htruthy
      rw [hgen kv0 hkv0] at htruthy
      cases htruthy
    · simp only [List.mem_singleton] at hin
      rw [hin] at htruthy
      simp only at htruthy
      rw [← getF_mkProduction_hydro, hhydro] at htruthy
      cases htruthy
  simp [rowRecord?, hcr, rowRecordOfCoerced, hg]

theorem fr_C9_witness : rowRecord? "FR" rowHalfHydro = none :=
  (fr_C9 "FR" rowHalfHydro crHalfHydro (by with_unfolding_all rfl)
      (Or.inl (by with_unfolding_all rfl))).2.2
    (by intro kv hkv; fin_cases hkv <;> with_unfolding_all rfl)

/-- Claim C10: every emitted production record's production mapping has
exactly the eight keys nuclear, coal, gas, oil, wind, solar, biomass and
hydro, in that order; a missing upstream value appears as a NaN value under
its key, never as an absent key. -/
theorem fr_C10 (zone : String) (rows : List Row) (recs : List PRecord)
    (h : normalize_production zone rows = .ok recs) :
    ∀ rec ∈ recs, rec.production.map Prod.fst
      = ["nuclear", "coal", "gas", "oil", "wind", "solar", "biomass", "hydro"] := by
  intro rec hrec
  rw [normalize_production_ok zone rows recs h] at hrec
  obtain ⟨r, hr, hsome⟩ := List.mem_filterMap.mp hrec
  unfold rowRecord? at hsome
  cases hcr : coerceRow r with
  | error e => simp [hcr] at hsome
  | ok cr =>
    simp only [hcr] at hsome
    unfold rowRecordOfCoerced at hsome
    by_cases hg : productionGate cr
    · rw [if_pos hg, Option.some.injEq] at hsome
      rw [← hsome]
      exact mkProduction_keys cr
    · rw [if_neg hg] at hsome
      exact Option.noConfusion hsome

theorem fr_C10_witness :
    prodRecA.production.map Prod.fst
      = ["nuclear", "coal", "gas", "oil", "wind", "solar", "biomass", "hydro"] :=
  fr_C10 "FR" [rowA] [prodRecA] (by with_unfolding_all rfl) prodRecA
    (List.mem_singleton.mpr rfl)

end FR
